import Mathlib

/-!
Verification development for the boflink static linker.

Shallow embedding of the link-graph output-construction pass
(`src/graph/built.rs`), the driver's symbol-resolution loop
(`src/linker/configured.rs`), the `.drectve` directive parser
(`src/drectve/mod.rs`, `src/drectve/parsers.rs`) and the built-in
Beacon API roster (`src/api/beaconapi.rs`).

Machine integers are modelled as `Nat` with explicit `% 2^32` at the
points where the Rust code performs wrapping `u32` arithmetic; byte
slices are `List Nat`; fallible paths return `Option`/`Except`.
-/

namespace Boflink

/-! ## u32 helpers -/

/-- 2^32, the `u32` modulus. -/
def U32MOD : Nat := 4294967296

/-- Wrapping `u32` addition (`u32::wrapping_add` / release-mode `+`). -/
def wadd (a b : Nat) : Nat := (a + b) % U32MOD

/-- Wrapping `u32` subtraction (`u32::wrapping_sub`). -/
def wsub (a b : Nat) : Nat := (a % U32MOD + (U32MOD - b % U32MOD)) % U32MOD

/-- Checked `u32` addition (`u32::checked_add`): fails on overflow. -/
def cadd (a b : Nat) : Option Nat := if a + b < U32MOD then some (a + b) else none

/-! ## COMDAT `Largest` selection, `BuiltLinkGraph::handle_comdats`
(src/graph/built.rs lines 442-462).

The loop walks the symbol's definition sections keeping a running
largest; when a strictly larger section appears the superseded running
largest is discarded and replaced.  `largestDiscards` returns the
indices of the sections the loop discards, given the data lengths of
the definition target sections in definition-edge order. -/

def largestDiscards : Option (Nat × Nat) → List (Nat × Nat) → List Nat
  | _, [] => []
  | none, (i, sz) :: rest => largestDiscards (some (i, sz)) rest
  | some (li, ls), (i, sz) :: rest =>
      if ls < sz then li :: largestDiscards (some (i, sz)) rest
      else largestDiscards (some (li, ls)) rest

/-- Discard flags produced by the `ComdatSelection::Largest` branch for a
symbol whose definition sections have data lengths `sizes` (in
definition-edge order, none previously discarded). -/
def handleLargest (sizes : List Nat) : List Bool :=
  let discards := largestDiscards none (List.zip (List.range sizes.length) sizes)
  (List.range sizes.length).map (fun i => List.contains discards i)

/-- Modelled from the spec: "keep the definition whose section has the
largest data length, discard the rest" — the flags the claim predicts:
only the first section of maximal data length is kept. -/
def specLargestFlags (sizes : List Nat) : List Bool :=
  let m := sizes.foldl Nat.max 0
  let keep := List.findIdx (fun sz => sz == m) sizes
  (List.range sizes.length).map (fun i => decide (i ≠ keep))

/-! ## Relocation emission and fixup, `BuiltLinkGraph::link`
(src/graph/built.rs lines 576-636, 796-823 and 917-1022).

One `RelocInfo` gathers everything `link()` consults for a single
surviving relocation edge: the edge's offset, the relocating member
section's output group / assigned virtual address / data bytes, and the
target symbol's flags, import-edge count and definition edges (each with
its target section's discarded flag, virtual address and group). -/

/-- One definition edge of the relocation's target symbol. -/
structure DefInfo where
  discarded : Bool
  addr : Nat
  targetVA : Nat
  targetGroup : String
deriving DecidableEq

/-- Data `link()` consults for one surviving relocation edge. -/
structure RelocInfo where
  relocOff : Nat
  secGroup : String
  secVA : Nat
  data : List Nat
  symIsSection : Bool
  symIsLabel : Bool
  symImportCount : Nat
  defs : List DefInfo
deriving DecidableEq

/-- `symbol.definitions().iter().find(|d| !d.target().is_discarded())`. -/
def findSurvivingDef (l : List DefInfo) : Option DefInfo :=
  l.find? (fun d => !d.discarded)

/-- Error kinds of `LinkGraphLinkError` raised by `link()`. -/
inductive LinkErr
  | discardedSection
  | relocationBounds (address size : Nat)
  | relocationOverflow (address : Nat)
deriving DecidableEq

/-- Relocation-emission skip (src/graph/built.rs lines 796-809): a COFF
relocation is written unless the target symbol's first surviving
definition lives in the same output section group. -/
def emitsRelocation (r : RelocInfo) : Bool :=
  match findSurvivingDef r.defs with
  | some d => !(d.targetGroup == r.secGroup)
  | none => true

/-- `u32::from_be_bytes` of the four bytes at `off`. -/
def be32At (data : List Nat) (off : Nat) : Nat :=
  ((data.getD off 0 * 256 + data.getD (off + 1) 0) * 256
      + data.getD (off + 2) 0) * 256 + data.getD (off + 3) 0

/-- `u32::from_le_bytes` of the four bytes at `off`. -/
def le32At (data : List Nat) (off : Nat) : Nat :=
  data.getD off 0 + 256 * (data.getD (off + 1) 0
      + 256 * (data.getD (off + 2) 0 + 256 * data.getD (off + 3) 0))

/-- `u32::to_le_bytes`. -/
def toLeBytes (v : Nat) : List Nat :=
  [v % 256, v / 256 % 256, v / 65536 % 256, v / 16777216 % 256]

/-- `copy_from_slice` of the little-endian word `v` at `off..off+4`. -/
def patch4 (data : List Nat) (off : Nat) (v : Nat) : List Nat :=
  data.take off ++ toLeBytes v ++ data.drop (off + 4)

/-- Fixup of one surviving relocation (src/graph/built.rs lines
926-1020): `.ok none` means the bytes are left untouched, `.ok (some d)`
the patched member-section data. -/
def fixupReloc (r : RelocInfo) : Except LinkErr (Option (List Nat)) :=
  match findSurvivingDef r.defs with
  | none => .ok none
  | some d =>
    if r.relocOff + 4 > r.data.length then
      .error (.relocationBounds r.relocOff r.data.length)
    else if r.symIsSection then
      match cadd (le32At r.data r.relocOff) d.targetVA with
      | some v => .ok (some (patch4 r.data r.relocOff v))
      | none => .error (.relocationOverflow r.relocOff)
    else if d.targetGroup == r.secGroup then
      let relocAddr := wadd r.relocOff r.secVA
      let symbolAddr := wadd d.addr d.targetVA
      let delta := wsub symbolAddr (wadd relocAddr 4)
      .ok (some (patch4 r.data r.relocOff (wadd (be32At r.data r.relocOff) delta)))
    else if r.symIsLabel then
      match cadd (le32At r.data r.relocOff) d.targetVA with
      | some v =>
        match cadd v d.addr with
        | some v2 => .ok (some (patch4 r.data r.relocOff v2))
        | none => .error (.relocationOverflow r.relocOff)
      | none => .error (.relocationOverflow r.relocOff)
    else
      .ok none

/-- Reservation-pass check for one relocation (src/graph/built.rs lines
580-628): error only when the target has no surviving definition and
no import edge at all. -/
def reserveCheck (r : RelocInfo) : Except LinkErr Unit :=
  match findSurvivingDef r.defs with
  | some _ => .ok ()
  | none => if r.symImportCount == 0 then .error .discardedSection else .ok ()

/-- The reservation pass over all surviving relocations. -/
def reservePass : List RelocInfo → Except LinkErr Unit
  | [] => .ok ()
  | r :: rs =>
    match reserveCheck r with
    | .error e => .error e
    | .ok _ => reservePass rs

/-- The fixup pass over all surviving relocations. -/
def fixupPass : List RelocInfo → Except LinkErr Unit
  | [] => .ok ()
  | r :: rs =>
    match fixupReloc r with
    | .error e => .error e
    | .ok _ => fixupPass rs

/-- Error behaviour of `link()` over the surviving relocations: the
reservation pass runs before the fixup pass. -/
def linkRelocPasses (rs : List RelocInfo) : Except LinkErr Unit :=
  match reservePass rs with
  | .error e => .error e
  | .ok _ => fixupPass rs

/-- Concrete relocation used to witness the same-group fixup: offset 0
in a four-byte `.text` member at virtual address 0, target defined at
offset 8 of a `.text` section at virtual address 0. -/
def rexSameGroup : RelocInfo :=
  { relocOff := 0, secGroup := ".text", secVA := 0, data := [0, 0, 0, 0],
    symIsSection := false, symIsLabel := false, symImportCount := 0,
    defs := [{ discarded := false, addr := 8, targetVA := 0, targetGroup := ".text" }] }

/-- Concrete out-of-bounds relocation whose target symbol has no
definitions but one import edge: offset 8 in a four-byte section. -/
def rexImportOOB : RelocInfo :=
  { relocOff := 8, secGroup := ".text", secVA := 0, data := [0, 0, 0, 0],
    symIsSection := false, symIsLabel := false, symImportCount := 1,
    defs := [] }

/-- Concrete out-of-bounds relocation whose target symbol has a
surviving definition in another group. -/
def rexDefOOB : RelocInfo :=
  { relocOff := 8, secGroup := ".text", secVA := 0, data := [0, 0, 0, 0],
    symIsSection := false, symIsLabel := false, symImportCount := 0,
    defs := [{ discarded := false, addr := 0, targetVA := 0, targetGroup := ".data" }] }

/-! ## COMMON allocation, `BuiltLinkGraph::allocate_commons` and
`merge_bss` (src/graph/built.rs lines 171-300).

The `OnceCell` holding the COMMON section is modelled as
`CommonState.pending`: `some syms` carries, per COMMON symbol in
first-appearance order, the symbol's definition-edge address list (for
a COMMON symbol the addresses are the requested sizes).  `take()`
empties it, making later calls no-ops. -/

/-- `u32::next_multiple_of` (the Rust implementation:
`match self % rhs { 0 => self, r => self + (rhs - r) }`). -/
def nextMul (addr align : Nat) : Nat :=
  if addr % align == 0 then addr else addr + (align - addr % align)

/-- `max_by_key` over a definition-address list (the source guarantees
the list is non-empty). -/
def maxVal (l : List Nat) : Nat := l.foldl Nat.max 0

/-- Stable ascending insertion by the size key: the element goes after
every already-placed element of equal or smaller size. -/
def insertBySize (x : String × Nat) : List (String × Nat) → List (String × Nat)
  | [] => [x]
  | y :: ys => if x.2 < y.2 then x :: y :: ys else y :: insertBySize x ys

/-- `sort_by_key` ascending by size: a stable ascending sort (Rust's
`sort_by_key` is stable, so any stable ascending sort computes the same
list). -/
def sortBySize : List (String × Nat) → List (String × Nat)
  | [] => []
  | x :: xs => insertBySize x (sortBySize xs)

/-- The address-assignment loop: round the running address up to the
COMMON section's alignment, record the offset, advance by the size. -/
def assignOffsets (align : Nat) : Nat → List (String × Nat) → List (String × Nat × Nat)
  | _, [] => []
  | addr, (n, sz) :: rest =>
    let off := nextMul addr align
    (n, sz, off) :: assignOffsets align (off + sz) rest

/-- The loop's final `symbol_addr`, stored as the COMMON section's
uninitialized size. -/
def finalAddr (align : Nat) : Nat → List (String × Nat) → Nat
  | addr, [] => addr
  | addr, (_, sz) :: rest => finalAddr align (nextMul addr align + sz) rest

/-- The graph state `allocate_commons` reads and writes. -/
structure CommonState where
  pending : Option (List (String × List Nat))
  align : Nat
  finalDefs : List (String × List Nat)
  commonSize : Nat
  bssNodes : List String
  dataNodes : List String
deriving DecidableEq

/-- Requested sizes (name, largest definition address) in symbol order,
then sorted ascending by size. -/
def sortedSizes (syms : List (String × List Nat)) : List (String × Nat) :=
  sortBySize (syms.map (fun p => (p.1, maxVal p.2)))

/-- The symbol → (size, final offset) assignment computed by
`allocate_commons`. -/
def commonAllocation (align : Nat) (syms : List (String × List Nat)) :
    List (String × Nat × Nat) :=
  assignOffsets align 0 (sortedSizes syms)

/-- `BuiltLinkGraph::allocate_commons`: takes the `OnceCell`; when it
still holds the COMMON section, collapses every COMMON symbol's
definition list to the single assigned offset, sets the section's
uninitialized size to the loop's final address, and appends the COMMON
section to the `.bss` output group. -/
def allocateCommons (s : CommonState) : CommonState :=
  match s.pending with
  | none => s
  | some syms =>
    { pending := none
      align := s.align
      finalDefs := (commonAllocation s.align syms).map (fun t => (t.1, [t.2.2]))
      commonSize := finalAddr s.align 0 (sortedSizes syms)
      bssNodes := s.bssNodes ++ ["COMMON data"]
      dataNodes := s.dataNodes }

/-- `BuiltLinkGraph::merge_bss`: allocate COMMONs, then move every
`.bss` node to the end of the `.data` output section. -/
def mergeBss (s : CommonState) : CommonState :=
  let t := allocateCommons s
  { t with bssNodes := [], dataNodes := t.dataNodes ++ t.bssNodes }

/-- Concrete pre-allocation state used to witness the COMMON claims:
two COMMON symbols, `b` requesting 4 then 12 bytes and `a` requesting
8 bytes, in an 8-byte-aligned COMMON section. -/
def commonsExample : CommonState :=
  { pending := some [("b", [4, 12]), ("a", [8])]
    align := 8
    finalDefs := []
    commonSize := 0
    bssNodes := [".bss$a"]
    dataNodes := [] }

/-! ## Import-thunk synthesis, `BuiltLinkGraph::apply_import_thunks`
(src/graph/built.rs lines 302-409).

An `ImportEdgeInfo` records, for one library-import edge (API node
first, then the library nodes, in iteration order): the source symbol's
name, the edge's import name, and the discarded flags of the sections
holding the symbol's relocation references. -/

/-- Linker target machine. -/
inductive Mach
  | amd64
  | i386
deriving DecidableEq

/-- One library-import edge as seen by `apply_import_thunks`. -/
structure ImportEdgeInfo where
  srcName : String
  impName : String
  refSourceDiscarded : List Bool
deriving DecidableEq

/-- `SymbolName::strip_dllimport` (src/graph/node/symbol.rs line 323). -/
def stripDllimport (s : String) : Option String :=
  if List.isPrefixOf "__imp_".toList s.toList then some (String.mk (s.toList.drop 6))
  else none

/-- `SymbolNode::is_unreferenced` (src/graph/node/symbol.rs lines
194-200): no references, or every referencing section discarded. -/
def isUnreferenced (refs : List Bool) : Bool :=
  refs.isEmpty || refs.all (fun b => b)

/-- The thunk-collection condition (src/graph/built.rs lines 309-314). -/
def thunkEligible (e : ImportEdgeInfo) : Bool :=
  (match stripDllimport e.srcName with
   | none => true
   | some u => !(u == e.impName)) && !(isUnreferenced e.refSourceDiscarded)

/-- The 8-byte thunk `jmp [rip + disp32]` plus two NOPs. -/
def codeThunk : List Nat := [0xff, 0x25, 0x00, 0x00, 0x00, 0x00, 0x90, 0x90]

/-- `IMAGE_REL_AMD64_REL32` / `IMAGE_REL_I386_DIR32` per machine. -/
def thunkRelocType : Mach → Nat
  | .amd64 => 4
  | .i386 => 6

/-- Per-thunk output: the definition edge into `.text$zzz`, the fresh
`__imp_` symbol (external storage class, not a section symbol, type
`Value 0`), the relocation edge to it, and the re-homed import edge's
new source symbol. -/
structure ThunkEntry where
  srcName : String
  defOffset : Nat
  newSymName : String
  newSymExternal : Bool
  newSymIsSection : Bool
  relocOffset : Nat
  relocType : Nat
  movedImportSource : String
deriving DecidableEq

/-- The synthesized `.text$zzz` section and its thunks. -/
structure ThunkSection where
  name : String
  characteristics : Nat
  sectionData : List Nat
  inRootCoff : Bool
  thunks : List ThunkEntry
deriving DecidableEq

/-- `IMAGE_SCN_CNT_CODE | IMAGE_SCN_MEM_EXECUTE | IMAGE_SCN_MEM_READ |
IMAGE_SCN_ALIGN_8BYTES`. -/
def thunkSectionCharacteristics : Nat :=
  0x20 ||| 0x20000000 ||| 0x40000000 ||| 0x400000

/-- The `.text$zzz` section and per-thunk edges built for the
eligible import edges, in collection order. -/
def buildThunkSection (m : Mach) (thunkSymbols : List ImportEdgeInfo) : ThunkSection :=
  { name := ".text$zzz"
    characteristics := thunkSectionCharacteristics
    sectionData := (List.replicate thunkSymbols.length codeThunk).flatten
    inRootCoff := true
    thunks := (List.zip (List.range thunkSymbols.length) thunkSymbols).map
      (fun p =>
        { srcName := p.2.srcName
          defOffset := p.1 * 8
          newSymName := "__imp_" ++ p.2.impName
          newSymExternal := true
          newSymIsSection := false
          relocOffset := 2 + p.1 * 8
          relocType := thunkRelocType m
          movedImportSource := "__imp_" ++ p.2.impName }) }

/-- `BuiltLinkGraph::apply_import_thunks`: `none` when no eligible
edge exists (no thunk section is created). -/
def applyImportThunks (m : Mach) (edges : List ImportEdgeInfo) : Option ThunkSection :=
  let thunkSymbols := edges.filter thunkEligible
  if thunkSymbols.isEmpty then none
  else some (buildThunkSection m thunkSymbols)

/-- Concrete import edge used to witness the thunk claim: symbol
`Sleep` imported as `Sleep` with one surviving reference. -/
def thunkExampleEdge : ImportEdgeInfo :=
  { srcName := "Sleep", impName := "Sleep", refSourceDiscarded := [false] }

/-! ## `.drectve` library queueing in the resolution loop,
`ConfiguredLinker::link` (src/linker/configured.rs lines 381-426 for the
archive-member path, 124-131 for the top-level pattern, 324-357 for the
drain). -/

/-- `str::trim_end_matches(".lib")` on the character list: repeatedly
strip the suffix. -/
def stripLibSuffix : Nat → List Char → List Char
  | 0, s => s
  | f + 1, s =>
    if List.isSuffixOf ".lib".toList s then stripLibSuffix f (s.take (s.length - 4))
    else s

/-- `trim_end_matches(".lib")` on a string. -/
def trimLib (s : String) : String := String.mk (stripLibSuffix s.toList.length s.toList)

/-- The member-COFF `.drectve` queueing decision (src/linker/configured.rs
lines 385-395): for each yielded library name, the trimmed name is
pushed onto the drectve queue only when the untrimmed name is already in
the opened-library name set. -/
def queueMemberDrectve (libraryNames : List String) (libs : List String) : List String :=
  libs.filterMap (fun l =>
    let trimmed := trimLib l
    if libraryNames.contains l then some trimmed else none)

/-- Modelled from the spec: "if it is a COFF, add it to the graph …
and also queue its `.drectve` directives" together with the claim's
"(that has not already been opened)" — the top-level pattern of lines
124-131, which queues exactly the trimmed names not already present. -/
def queueMemberDrectveClaim (libraryNames : List String) (libs : List String) : List String :=
  libs.filterMap (fun l =>
    let trimmed := trimLib l
    if libraryNames.contains trimmed then none else some trimmed)

/-- The drain step (src/linker/configured.rs lines 324-357): a queued
library is opened only when inserting its name into the opened-library
set succeeds (it was not already present). -/
def drainOpens : List String → List String → List String
  | _, [] => []
  | names, l :: rest =>
    if names.contains l then drainOpens names rest
    else l :: drainOpens (l :: names) rest

/-! ## Built-in Beacon API roster, `BeaconApiSymbols::extract_api_symbol`
(src/api/beaconapi.rs lines 16-69 and 92-112). -/

/-- `BEACONAPI_SYMBOLS`, verbatim (the 30th entry carries the trailing
colon present in the source). -/
def beaconApiSymbols : List String :=
  ["BeaconPrintf", "BeaconDataParse", "BeaconOutput", "BeaconDataExtract",
   "BeaconDataInt", "BeaconGetSpawnTo", "BeaconCleanupProcess",
   "BeaconSpawnTemporaryProcess", "BeaconDataShort", "toWideChar",
   "BeaconUseToken", "BeaconGetValue", "BeaconRemoveValue",
   "BeaconInjectProcess", "BeaconDataLength", "BeaconAddValue",
   "BeaconRevertToken", "BeaconOpenThread", "BeaconUnmapViewOfFile",
   "BeaconFormatInt", "BeaconGetSyscallInformation",
   "BeaconDataStoreProtectItem", "BeaconFormatFree",
   "BeaconDataStoreUnprotectItem", "BeaconInformation",
   "BeaconDataStoreMaxEntries", "BeaconDuplicateHandle",
   "BeaconOpenProcess", "BeaconDataStoreGetItem", "BeaconEnableBeaconGate:",
   "BeaconVirtualQuery", "BeaconWriteProcessMemory",
   "BeaconSetThreadContext", "BeaconVirtualProtect", "BeaconFormatAppend",
   "BeaconDisableBeaconGate", "BeaconResumeThread", "BeaconDataPtr",
   "BeaconGetThreadContext", "BeaconIsAdmin", "BeaconVirtualAlloc",
   "BeaconCloseHandle", "BeaconReadProcessMemory", "BeaconFormatReset",
   "BeaconVirtualAllocEx", "BeaconFormatPrintf", "BeaconFormatToString",
   "BeaconInjectTemporaryProcess", "BeaconVirtualFree",
   "BeaconGetCustomUserData", "BeaconVirtualProtectEx", "BeaconFormatAlloc"]

/-- `str::trim_start_matches`: repeatedly strip the pattern from the
front. -/
def stripRepeatedPre (pat : List Char) : Nat → List Char → List Char
  | 0, s => s
  | f + 1, s =>
    if List.isPrefixOf pat s then stripRepeatedPre pat f (s.drop pat.length) else s

/-- `trim_start_matches(pat)` on a string. -/
def trimStartMatches (pat s : String) : String :=
  String.mk (stripRepeatedPre pat.toList s.toList.length s.toList)

/-- Import kind of an `ImportMember` (`ImportType`). -/
inductive ImpType
  | code
  | data
  | konst
deriving DecidableEq

/-- The fields of the `ImportMember` built by `extract_api_symbol`
(`import` is always the `Name` variant here, carried as a string). -/
structure ImportMemberInfo where
  arch : Mach
  symbol : String
  dll : String
  importAs : String
  typ : ImpType
deriving DecidableEq

/-- `iter().find_map(..)` over the roster, returning the contained
symbol on the first equality hit. -/
def findMatch : List String → String → Option String
  | [], _ => none
  | c :: rest, u => if c == u then some c else findMatch rest u

/-- `BeaconApiSymbols::extract_api_symbol`: strip `__imp__` (32-bit) or
`__imp_` (otherwise) and match against the roster; `none` models
`ApiSymbolError::NotFound`. -/
def extractApiSymbol (arch : Mach) (symbol : String) : Option ImportMemberInfo :=
  let unprefixed :=
    if arch = Mach.i386 then trimStartMatches "__imp__" symbol
    else trimStartMatches "__imp_" symbol
  match findMatch beaconApiSymbols unprefixed with
  | some c =>
    some { arch := arch, symbol := c, dll := "Beacon API", importAs := c, typ := ImpType.code }
  | none => none

/-- Modelled from the spec: "for a 32-bit target the leading underscore
and `__imp__` prefix are stripped before matching" — the claim's
stripping, which also removes a lone leading underscore. -/
def claimStripI386 (s : String) : String :=
  if List.isPrefixOf "__imp__".toList s.toList then String.mk (s.toList.drop 7)
  else if List.isPrefixOf "_".toList s.toList then String.mk (s.toList.drop 1)
  else s

/-- Modelled from the spec: the 32-bit lookup as the claim describes it,
using `claimStripI386` before matching. -/
def extractApiSymbolClaim (symbol : String) : Option ImportMemberInfo :=
  match findMatch beaconApiSymbols (claimStripI386 symbol) with
  | some c =>
    some { arch := Mach.i386, symbol := c, dll := "Beacon API", importAs := c,
           typ := ImpType.code }
  | none => none

/-! ## COMDAT keep/discard and associative propagation,
`BuiltLinkGraph::handle_comdats` (src/graph/built.rs lines 411-491) and
`SectionNode::set_discarded` / `associative_bfs`
(src/graph/node/section.rs lines 125-166).

Sections are indexed `0, 1, …`; `flags` is the per-section discarded
flag list. -/

/-- Per-section metadata: outgoing associative edge targets and data
length. -/
structure SecMeta where
  assocTargets : List Nat
  dataLen : Nat
deriving DecidableEq

/-- `ComdatSelection`. -/
inductive Comdat
  | noDuplicates
  | any
  | sameSize
  | exactMatch
  | associative
  | largest
deriving DecidableEq

/-- One definition edge of an external symbol: target section index and
the COMDAT selection carried by the edge weight. -/
structure SymDefInfo where
  target : Nat
  selection : Option Comdat
deriving DecidableEq

/-- An external symbol's definition-edge list. -/
structure SymInfo where
  defs : List SymDefInfo
deriving DecidableEq

/-- Discard the target sections of the remaining definitions
(Any / SameSize / ExactMatch branch). -/
def discardRest (flags : List Bool) (ds : List SymDefInfo) : List Bool :=
  ds.foldl (fun fl d => fl.set d.target true) flags

/-- The running-largest loop of the `Largest` branch over all
definition edges. -/
def largestPhase (secs : List SecMeta) : Option Nat → List SymDefInfo → List Bool → List Bool
  | _, [], flags => flags
  | none, d :: rest, flags => largestPhase secs (some d.target) rest flags
  | some li, d :: rest, flags =>
    if (secs.getD li { assocTargets := [], dataLen := 0 }).dataLen
        < (secs.getD d.target { assocTargets := [], dataLen := 0 }).dataLen then
      largestPhase secs (some d.target) rest (flags.set li true)
    else
      largestPhase secs (some li) rest flags

/-- One step of `AssociativeBfs::next`: pop the front, append its
unvisited associative targets. -/
def bfsSteps (secs : List SecMeta) : Nat → List Nat → List Nat → List Nat
  | 0, _, _ => []
  | _, [], _ => []
  | fuel + 1, q :: qs, visited =>
    let targets := (secs.getD q { assocTargets := [], dataLen := 0 }).assocTargets
    let stepped := targets.foldl
      (fun p t => if p.2.contains t then p else (p.1 ++ [t], p.2 ++ [t])) (qs, visited)
    q :: bfsSteps secs fuel stepped.1 stepped.2

/-- Fuel bound: one unit per section plus one per associative edge. -/
def bfsFuel (secs : List SecMeta) : Nat :=
  1 + secs.length + (secs.map (fun s => s.assocTargets.length)).sum

/-- `SectionNode::associative_bfs` starting from `root` (the root is
yielded first). -/
def associativeBfs (secs : List SecMeta) (root : Nat) : List Nat :=
  bfsSteps secs (bfsFuel secs) [root] [root]

/-- The propagation for one definition's root section (src/graph/built.rs
lines 469-489): read the root's flag once, then `set_discarded` it onto
every section the associative BFS visits. -/
def propagateFrom (secs : List SecMeta) (flags : List Bool) (root : Nat) : List Bool :=
  let rootDiscarded := flags.getD root false
  (associativeBfs secs root).foldl (fun fl i => fl.set i rootDiscarded) flags

/-- Propagation over all of the symbol's definition edges. -/
def propagateAll (secs : List SecMeta) (flags : List Bool) (ds : List SymDefInfo) : List Bool :=
  ds.foldl (fun fl d => propagateFrom secs fl d.target) flags

/-- `handle_comdats` for one external symbol: the per-selection phase
followed by associative propagation (skipped entirely for a `None` or
`Associative` first selection, which `continue`). -/
def handleComdatSymbol (secs : List SecMeta) (flags : List Bool) (sym : SymInfo) : List Bool :=
  match sym.defs with
  | [] => flags
  | d0 :: rest =>
    match d0.selection with
    | none => flags
    | some sel =>
      if sel = Comdat.any ∨ sel = Comdat.sameSize ∨ sel = Comdat.exactMatch then
        propagateAll secs (discardRest flags rest) sym.defs
      else if sel = Comdat.largest then
        propagateAll secs (largestPhase secs none sym.defs flags) sym.defs
      else if sel = Comdat.associative then
        flags
      else
        propagateAll secs flags sym.defs

/-- `BuiltLinkGraph::handle_comdats` over every external symbol. -/
def handleComdats (secs : List SecMeta) (syms : List SymInfo) (flags : List Bool) :
    List Bool :=
  syms.foldl (handleComdatSymbol secs) flags

/-- Two sections: section 0 (a kept COMDAT `Any` root) with an
associative edge to section 1. -/
def secsC9 : List SecMeta :=
  [{ assocTargets := [1], dataLen := 4 }, { assocTargets := [], dataLen := 4 }]

/-- One external symbol defined in section 0 with selection `Any`. -/
def symsC9 : List SymInfo := [{ defs := [{ target := 0, selection := some Comdat.any }] }]

/-! ## `.drectve` directive parsing, `DrectveLibraries::next`
(src/drectve/mod.rs lines 17-42) over the combinators of
src/drectve/parsers.rs.

The composed parser for one directive is
`many0(token(" ")) ≫ (token("-") <|> token("/")) ≫
 (many1(not_token(":")) <* token(":")) ⊗
 ((many1(not_token("\x22")) surrounded_by token("\x22")
   <|> many1(not_token(" "))) <* token(" "))`;
single-character `token`/`not_token`/`many0`/`many1` specialise to the
take/drop functions below. -/

/-- `many1(not_token(c))`'s consumed text: the longest prefix free of
`c` (also stops at end of data). -/
def takeNe (c : Char) : List Char → List Char
  | [] => []
  | x :: xs => if x = c then [] else x :: takeNe c xs

/-- The rest after `many1(not_token(c))`. -/
def dropNe (c : Char) : List Char → List Char
  | [] => []
  | x :: xs => if x = c then x :: xs else dropNe c xs

/-- `many0(token(" "))`: skip leading spaces. -/
def dropSp : List Char → List Char
  | [] => []
  | x :: xs => if x = ' ' then dropSp xs else x :: xs

/-- The quoted-value branch
`many1(not_token("\x22")).surrounded_by(token("\x22"))`. -/
def tryQuoted (s : List Char) : Option (List Char × List Char) :=
  match s with
  | [] => none
  | c :: r =>
    if c = '"' then
      if takeNe '"' r = [] then none
      else
        match dropNe '"' r with
        | c2 :: r2 => if c2 = '"' then some (takeNe '"' r, r2) else none
        | [] => none
    else none

/-- The value parser: quoted branch `or` bare
`many1(not_token(" "))` (the `Or` commits to the first success). -/
def parseValue (s : List Char) : Option (List Char × List Char) :=
  match tryQuoted s with
  | some vr => some vr
  | none =>
    if takeNe ' ' s = [] then none else some (takeNe ' ' s, dropNe ' ' s)

/-- One iteration of the composed parser: skip spaces, require `-` or
`/`, parse `flag` up to `:`, parse the value, require a terminating
space.  Returns `((flag, value), remaining)`. -/
def parseDirective (s : List Char) : Option ((List Char × List Char) × List Char) :=
  match dropSp s with
  | [] => none
  | c :: rest =>
    if c = '-' ∨ c = '/' then
      if takeNe ':' rest = [] then none
      else
        match dropNe ':' rest with
        | c1 :: r2 =>
          if c1 = ':' then
            match parseValue r2 with
            | some (v, r) =>
              match r with
              | c2 :: r3 => if c2 = ' ' then some ((takeNe ':' rest, v), r3) else none
              | [] => none
            | none => none
          else none
        | [] => none
    else none

/-- `u8::to_ascii_lowercase` lifted to characters (only `A`-`Z` fold). -/
def asciiLower (c : Char) : Char :=
  if 'A' ≤ c ∧ c ≤ 'Z' then Char.ofNat (c.toNat + 32) else c

/-- `str::eq_ignore_ascii_case`. -/
def eqIgnoreAsciiCase (a b : List Char) : Bool :=
  a.map asciiLower == b.map asciiLower

/-- The `DrectveLibraries` iterator's loop, fuelled (each successful
parse consumes at least one character). -/
def drectveLoop : Nat → List Char → List (List Char)
  | 0, _ => []
  | fuel + 1, s =>
    match parseDirective s with
    | none => []
    | some ((flag, v), rest) =>
      if eqIgnoreAsciiCase flag "DEFAULTLIB".toList then v :: drectveLoop fuel rest
      else drectveLoop fuel rest

/-- All library names yielded by the iterator for one directive
string. -/
def drectveLibraries (s : List Char) : List (List Char) :=
  drectveLoop (s.length + 1) s

/-- A well-formed directive token, for stating what the parser accepts:
dash or slash, flag, colon, bare or quoted value, terminating space. -/
structure Directive where
  dash : Bool
  flag : List Char
  quoted : Bool
  value : List Char
deriving DecidableEq

/-- The value as it appears in the directive text. -/
def renderValue (d : Directive) : List Char :=
  if d.quoted then '"' :: (d.value ++ ['"']) else d.value

/-- The directive token's text: `-flag:value ` or `/flag:value `. -/
def renderDirective (d : Directive) : List Char :=
  (if d.dash then '-' else '/') :: (d.flag ++ ':' :: (renderValue d ++ [' ']))

/-- A directive-section string made of well-formed tokens. -/
def renderDirectives (ds : List Directive) : List Char :=
  (ds.map renderDirective).flatten

/-- Well-formedness: non-empty colon-free flag; non-empty value, free of
quotes when quoted, free of spaces and not starting with a quote when
bare. -/
def WfDirective (d : Directive) : Prop :=
  d.flag ≠ [] ∧ ':' ∉ d.flag ∧ d.value ≠ [] ∧
  (d.quoted = true → '"' ∉ d.value) ∧
  (d.quoted = false → ' ' ∉ d.value ∧ d.value.head? ≠ some '"')

instance (d : Directive) : Decidable (WfDirective d) := by
  unfold WfDirective
  infer_instance

/-- Whether the token's flag matches `DEFAULTLIB` case-insensitively. -/
def isDefaultlibDir (d : Directive) : Bool :=
  eqIgnoreAsciiCase d.flag "DEFAULTLIB".toList

/-- Three concrete directive tokens used to witness the parser claim:
two `DEFAULTLIB` (one quoted, mixed case) and one other directive. -/
def drectveExampleDirs : List Directive :=
  [{ dash := false, flag := "DEFAULTLIB".toList, quoted := false, value := "uuid.lib".toList },
   { dash := true, flag := "defaultlib".toList, quoted := true, value := "user32.lib".toList },
   { dash := false, flag := "EXPORT".toList, quoted := false, value := "go".toList }]

end Boflink

namespace Boflink

theorem fixupPass_ne_ok {r : RelocInfo} {rs : List RelocInfo} (hmem : r ∈ rs)
    {e : LinkErr} (he : fixupReloc r = .error e) : fixupPass rs ≠ .ok () := by
  induction rs with
  | nil => cases hmem
  | cons a as ih =>
    rcases List.mem_cons.mp hmem with h | h
    · subst h
      unfold fixupPass
      rw [he]
      intro hcontra
      cases hcontra
    · unfold fixupPass
      cases hfa : fixupReloc a with
      | error e' => intro hcontra; cases hcontra
      | ok _ => exact ih h

theorem linkRelocPasses_ne_ok {r : RelocInfo} {rs : List RelocInfo} (hmem : r ∈ rs)
    {e : LinkErr} (he : fixupReloc r = .error e) : linkRelocPasses rs ≠ .ok () := by
  unfold linkRelocPasses
  cases hr : reservePass rs with
  | error e' => intro hcontra; cases hcontra
  | ok _ => exact fixupPass_ne_ok hmem he

theorem le_nextMul (addr align : Nat) : addr ≤ nextMul addr align := by
  unfold nextMul
  split <;> omega

theorem nextMul_mod (addr : Nat) {align : Nat} (ha : 0 < align) :
    nextMul addr align % align = 0 := by
  unfold nextMul
  split
  · next h => simpa using h
  · next h =>
    have hr : addr % align ≠ 0 := by simpa using h
    have hlt : addr % align < align := Nat.mod_lt _ ha
    have h1 : (align - addr % align) % align = align - addr % align :=
      Nat.mod_eq_of_lt (by omega)
    rw [Nat.add_mod, h1]
    have h2 : addr % align + (align - addr % align) = align := by omega
    rw [h2, Nat.mod_self]

theorem mem_assignOffsets {align : Nat} :
    ∀ {addr : Nat} {l : List (String × Nat)} {t : String × Nat × Nat},
      t ∈ assignOffsets align addr l → (t.1, t.2.1) ∈ l := by
  intro addr l
  induction l generalizing addr with
  | nil => intro t ht; cases ht
  | cons x xs ih =>
    intro t ht
    obtain ⟨n, sz⟩ := x
    rcases List.mem_cons.mp ht with h | h
    · subst h; simp
    · exact List.mem_cons_of_mem _ (ih h)

theorem assignOffsets_off_lb {align : Nat} :
    ∀ {addr : Nat} {l : List (String × Nat)} {t : String × Nat × Nat},
      t ∈ assignOffsets align addr l → addr ≤ t.2.2 := by
  intro addr l
  induction l generalizing addr with
  | nil => intro t ht; cases ht
  | cons x xs ih =>
    intro t ht
    obtain ⟨n, sz⟩ := x
    rcases List.mem_cons.mp ht with h | h
    · subst h; exact le_nextMul addr align
    · have h1 := ih h
      have h2 := le_nextMul addr align
      omega

theorem assignOffsets_mod {align : Nat} (ha : 0 < align) :
    ∀ {addr : Nat} {l : List (String × Nat)} {t : String × Nat × Nat},
      t ∈ assignOffsets align addr l → t.2.2 % align = 0 := by
  intro addr l
  induction l generalizing addr with
  | nil => intro t ht; cases ht
  | cons x xs ih =>
    intro t ht
    obtain ⟨n, sz⟩ := x
    rcases List.mem_cons.mp ht with h | h
    · subst h; exact nextMul_mod addr ha
    · exact ih h

theorem assignOffsets_pairwise_off {align : Nat} :
    ∀ {addr : Nat} {l : List (String × Nat)},
      List.Pairwise (fun a b => a.2.2 ≤ b.2.2) (assignOffsets align addr l) := by
  intro addr l
  induction l generalizing addr with
  | nil => exact List.Pairwise.nil
  | cons x xs ih =>
    obtain ⟨n, sz⟩ := x
    refine List.Pairwise.cons ?_ ih
    intro t ht
    have h1 := assignOffsets_off_lb ht
    show nextMul addr align ≤ t.2.2
    omega

theorem assignOffsets_pairwise_size {align : Nat} :
    ∀ {addr : Nat} {l : List (String × Nat)},
      List.Pairwise (fun a b => a.2 ≤ b.2) l →
      List.Pairwise (fun a b => a.2.1 ≤ b.2.1) (assignOffsets align addr l) := by
  intro addr l
  induction l generalizing addr with
  | nil => intro _; exact List.Pairwise.nil
  | cons x xs ih =>
    intro hp
    obtain ⟨n, sz⟩ := x
    obtain ⟨hhead, htail⟩ := List.pairwise_cons.mp hp
    refine List.Pairwise.cons ?_ (ih htail)
    intro t ht
    exact hhead _ (mem_assignOffsets ht)

theorem mem_insertBySize {x t : String × Nat} :
    ∀ {l : List (String × Nat)}, t ∈ insertBySize x l ↔ t = x ∨ t ∈ l := by
  intro l
  induction l with
  | nil => simp [insertBySize]
  | cons y ys ih =>
    unfold insertBySize
    split
    · simp
    · simp only [List.mem_cons, ih]
      tauto

theorem pairwise_insertBySize {x : String × Nat} :
    ∀ {l : List (String × Nat)},
      List.Pairwise (fun a b => a.2 ≤ b.2) l →
      List.Pairwise (fun a b => a.2 ≤ b.2) (insertBySize x l) := by
  intro l
  induction l with
  | nil => intro _; simp [insertBySize]
  | cons y ys ih =>
    intro hp
    obtain ⟨hhead, htail⟩ := List.pairwise_cons.mp hp
    unfold insertBySize
    split
    · next hlt =>
      refine List.Pairwise.cons ?_ hp
      intro t ht
      rcases List.mem_cons.mp ht with h | h
      · subst h; omega
      · have := hhead _ h
        omega
    · next hge =>
      refine List.Pairwise.cons ?_ (ih htail)
      intro t ht
      rcases mem_insertBySize.mp ht with h | h
      · subst h; omega
      · exact hhead _ h

theorem sortBySize_sorted :
    ∀ (l : List (String × Nat)),
      List.Pairwise (fun a b => a.2 ≤ b.2) (sortBySize l) := by
  intro l
  induction l with
  | nil => exact List.Pairwise.nil
  | cons x xs ih => exact pairwise_insertBySize ih

theorem length_insertBySize (x : String × Nat) :
    ∀ (l : List (String × Nat)), (insertBySize x l).length = l.length + 1 := by
  intro l
  induction l with
  | nil => rfl
  | cons y ys ih =>
    unfold insertBySize
    split
    · simp
    · simp [ih]

theorem length_sortBySize :
    ∀ (l : List (String × Nat)), (sortBySize l).length = l.length := by
  intro l
  induction l with
  | nil => rfl
  | cons x xs ih =>
    show (insertBySize x (sortBySize xs)).length = xs.length + 1
    rw [length_insertBySize, ih]

theorem length_assignOffsets {align : Nat} :
    ∀ (l : List (String × Nat)) (addr : Nat),
      (assignOffsets align addr l).length = l.length := by
  intro l
  induction l with
  | nil => intro addr; rfl
  | cons x xs ih =>
    intro addr
    obtain ⟨n, sz⟩ := x
    show (assignOffsets align (nextMul addr align + sz) xs).length + 1 = xs.length + 1
    rw [ih]

theorem finalAddr_eq_getLast {align : Nat} :
    ∀ (l : List (String × Nat)) (addr : Nat),
      finalAddr align addr l =
        (match (assignOffsets align addr l).getLast? with
         | none => addr
         | some t => t.2.2 + t.2.1) := by
  intro l
  induction l with
  | nil => intro addr; rfl
  | cons x xs ih =>
    intro addr
    obtain ⟨n, sz⟩ := x
    show finalAddr align (nextMul addr align + sz) xs = _
    rw [ih (nextMul addr align + sz)]
    cases hxs : assignOffsets align (nextMul addr align + sz) xs with
    | nil =>
      simp [assignOffsets, hxs]
    | cons a as =>
      have hsome : ((a :: as).getLast?).isSome := List.getLast?_isSome.mpr (by simp)
      obtain ⟨b, hb⟩ := Option.isSome_iff_exists.mp hsome
      simp only [assignOffsets, hxs, List.getLast?_cons_cons, hb]

theorem joinReplicate_length {α : Type} (c : List α) :
    ∀ (n : Nat), ((List.replicate n c).flatten).length = n * c.length := by
  intro n
  induction n with
  | zero => simp
  | succ k ih =>
    rw [List.replicate_succ, List.flatten_cons, List.length_append, ih]
    ring

theorem joinReplicate_chunk {α : Type} (c : List α) (hc : c.length = 8) :
    ∀ (n i : Nat), i < n →
      (((List.replicate n c).flatten).drop (8 * i)).take 8 = c := by
  intro n
  induction n with
  | zero => intro i hi; omega
  | succ k ih =>
    intro i hi
    rw [List.replicate_succ, List.flatten_cons]
    cases i with
    | zero =>
      rw [Nat.mul_zero, List.drop_zero]
      rw [show (8 : Nat) = c.length from hc.symm, List.take_left]
    | succ j =>
      have hj : j < k := by omega
      have hdrop : (c ++ (List.replicate k c).flatten).drop (8 * (j + 1))
          = ((List.replicate k c).flatten).drop (8 * j) := by
        rw [show 8 * (j + 1) = c.length + 8 * j by omega]
        exact List.drop_append (8 * j)
      rw [hdrop]
      exact ih j hj

theorem buildThunkSection_get (m : Mach) (l : List ImportEdgeInfo) (i : Nat)
    (hi : i < (buildThunkSection m l).thunks.length) (hi2 : i < l.length) :
    (buildThunkSection m l).thunks.get ⟨i, hi⟩
      = { srcName := (l.get ⟨i, hi2⟩).srcName
          defOffset := i * 8
          newSymName := "__imp_" ++ (l.get ⟨i, hi2⟩).impName
          newSymExternal := true
          newSymIsSection := false
          relocOffset := 2 + i * 8
          relocType := thunkRelocType m
          movedImportSource := "__imp_" ++ (l.get ⟨i, hi2⟩).impName } := by
  simp only [buildThunkSection, List.get_eq_getElem, List.getElem_map, List.getElem_zip,
    List.getElem_range]

theorem getD_set_self (l : List Bool) (i : Nat) (v : Bool) (h : i < l.length) :
    (l.set i v).getD i false = v := by
  simp [List.getD, List.getElem?_set_self, h]

theorem getD_set_ne (l : List Bool) (i j : Nat) (v : Bool) (h : i ≠ j) :
    (l.set j v).getD i false = l.getD i false := by
  simp [List.getD, List.getElem?_set_ne (by omega : j ≠ i)]

theorem getD_set_true_mono (l : List Bool) (j i : Nat) (h : l.getD i false = true) :
    (l.set j true).getD i false = true := by
  rcases eq_or_ne i j with rfl | hne
  · by_cases hj : i < l.length
    · rw [getD_set_self l i true hj]
    · rw [List.set_eq_of_length_le (by omega)]
      exact h
  · rw [getD_set_ne l i j true hne]
    exact h

theorem discardRest_mono :
    ∀ (ds : List SymDefInfo) (flags : List Bool) (i : Nat),
      flags.getD i false = true → (discardRest flags ds).getD i false = true := by
  intro ds
  induction ds with
  | nil => intro flags i h; exact h
  | cons d rest ih =>
    intro flags i h
    show (rest.foldl (fun fl d => fl.set d.target true) (flags.set d.target true)).getD i false
        = true
    exact ih (flags.set d.target true) i (getD_set_true_mono flags d.target i h)

theorem largestPhase_mono (secs : List SecMeta) :
    ∀ (ds : List SymDefInfo) (lg : Option Nat) (flags : List Bool) (i : Nat),
      flags.getD i false = true → (largestPhase secs lg ds flags).getD i false = true := by
  intro ds
  induction ds with
  | nil => intro lg flags i h; cases lg <;> exact h
  | cons d rest ih =>
    intro lg flags i h
    cases lg with
    | none => exact ih (some d.target) flags i h
    | some li =>
      show (if _ then largestPhase secs (some d.target) rest (flags.set li true)
            else largestPhase secs (some li) rest flags).getD i false = true
      split
      · exact ih (some d.target) (flags.set li true) i (getD_set_true_mono flags li i h)
      · exact ih (some li) flags i h

theorem foldl_set_getD_of_not_mem (v : Bool) :
    ∀ (idxs : List Nat) (flags : List Bool) (i : Nat), i ∉ idxs →
      (idxs.foldl (fun fl j => fl.set j v) flags).getD i false = flags.getD i false := by
  intro idxs
  induction idxs with
  | nil => intro flags i _; rfl
  | cons j rest ih =>
    intro flags i hni
    have hij : i ≠ j := fun he => hni (he ▸ List.mem_cons_self j rest)
    have hnr : i ∉ rest := fun hr => hni (List.mem_cons_of_mem j hr)
    show (rest.foldl (fun fl j => fl.set j v) (flags.set j v)).getD i false = _
    rw [ih (flags.set j v) i hnr, getD_set_ne flags i j v hij]

theorem foldl_set_getD_of_mem (v : Bool) :
    ∀ (idxs : List Nat) (flags : List Bool) (i : Nat), i ∈ idxs → i < flags.length →
      (idxs.foldl (fun fl j => fl.set j v) flags).getD i false = v := by
  intro idxs
  induction idxs with
  | nil => intro flags i hm; cases hm
  | cons j rest ih =>
    intro flags i hm hlt
    show (rest.foldl (fun fl j => fl.set j v) (flags.set j v)).getD i false = v
    by_cases hr : i ∈ rest
    · exact ih (flags.set j v) i hr (by simpa using hlt)
    · have hij : i = j := by
        rcases List.mem_cons.mp hm with h | h
        · exact h
        · exact absurd h hr
      subst hij
      rw [foldl_set_getD_of_not_mem v rest (flags.set i v) i hr]
      exact getD_set_self flags i v hlt

theorem findMatch_eq_none :
    ∀ (l : List String) (u : String), findMatch l u = none ↔ u ∉ l := by
  intro l
  induction l with
  | nil => intro u; simp [findMatch]
  | cons c rest ih =>
    intro u
    unfold findMatch
    cases hc : (c == u) with
    | true =>
      have he : c = u := by simpa using hc
      subst he
      simp
    | false =>
      have hne : ¬ (u = c) := by
        intro he
        subst he
        simp at hc
      simp [ih, hne]

theorem findMatch_eq_some :
    ∀ (l : List String) (u c : String), findMatch l u = some c → c = u ∧ c ∈ l := by
  intro l
  induction l with
  | nil => intro u c h; cases h
  | cons a rest ih =>
    intro u c h
    unfold findMatch at h
    by_cases ha : (a == u) = true
    · rw [if_pos ha] at h
      have he : a = u := by simpa using ha
      cases h
      exact ⟨he, List.mem_cons_self a rest⟩
    · rw [if_neg ha] at h
      obtain ⟨h1, h2⟩ := ih u c h
      exact ⟨h1, List.mem_cons_of_mem a h2⟩

theorem takeNe_app (c : Char) : ∀ (l r : List Char), c ∉ l → takeNe c (l ++ c :: r) = l := by
  intro l
  induction l with
  | nil =>
    intro r _
    show takeNe c (c :: r) = []
    simp [takeNe]
  | cons x xs ih =>
    intro r hn
    have hx : ¬ (x = c) := fun he => hn (by rw [he]; exact List.mem_cons_self c xs)
    show takeNe c (x :: (xs ++ c :: r)) = x :: xs
    unfold takeNe
    rw [if_neg hx, ih r (fun hm => hn (List.mem_cons_of_mem x hm))]

theorem dropNe_app (c : Char) : ∀ (l r : List Char), c ∉ l → dropNe c (l ++ c :: r) = c :: r := by
  intro l
  induction l with
  | nil =>
    intro r _
    show dropNe c (c :: r) = c :: r
    simp [dropNe]
  | cons x xs ih =>
    intro r hn
    have hx : ¬ (x = c) := fun he => hn (by rw [he]; exact List.mem_cons_self c xs)
    show dropNe c (x :: (xs ++ c :: r)) = c :: r
    unfold dropNe
    rw [if_neg hx]
    exact ih r (fun hm => hn (List.mem_cons_of_mem x hm))

theorem parseValue_quoted (v rest : List Char) (hv : v ≠ []) (hq : Char.mk 34 (by decide) ∉ v) :
    parseValue (('"' :: (v ++ ['"'])) ++ ' ' :: rest) = some (v, ' ' :: rest) := by
  have hshape : ('"' :: (v ++ ['"'])) ++ ' ' :: rest = '"' :: (v ++ '"' :: (' ' :: rest)) := by
    simp
  rw [hshape]
  have htq : tryQuoted ('"' :: (v ++ '"' :: (' ' :: rest))) = some (v, ' ' :: rest) := by
    simp only [tryQuoted, if_pos rfl]
    rw [takeNe_app '"' v (' ' :: rest) hq, dropNe_app '"' v (' ' :: rest) hq]
    simp [hv]
  simp only [parseValue, htq]

theorem parseValue_bare (v rest : List Char) (hv : v ≠ []) (hsp : ' ' ∉ v)
    (hhd : v.head? ≠ some '"') :
    parseValue (v ++ ' ' :: rest) = some (v, ' ' :: rest) := by
  have htq : tryQuoted (v ++ ' ' :: rest) = none := by
    cases v with
    | nil => exact absurd rfl hv
    | cons x xs =>
      have hx : ¬ (x = '"') := fun he => hhd (by simp [he])
      show tryQuoted (x :: (xs ++ ' ' :: rest)) = none
      simp only [tryQuoted, if_neg hx]
  simp only [parseValue, htq]
  rw [takeNe_app ' ' v rest hsp, dropNe_app ' ' v rest hsp]
  simp [hv]

theorem parseDirective_core (c0 : Char) (hc : c0 = '-' ∨ c0 = '/')
    (flag valRender v rest : List Char) (hf : flag ≠ []) (hfc : ':' ∉ flag)
    (hval : parseValue (valRender ++ ' ' :: rest) = some (v, ' ' :: rest)) :
    parseDirective (c0 :: (flag ++ ':' :: (valRender ++ ' ' :: rest)))
      = some ((flag, v), rest) := by
  have hc0 : ¬ (c0 = ' ') := by
    rcases hc with h | h <;> (subst h; decide)
  have hds : dropSp (c0 :: (flag ++ ':' :: (valRender ++ ' ' :: rest)))
      = c0 :: (flag ++ ':' :: (valRender ++ ' ' :: rest)) := by
    simp only [dropSp, if_neg hc0]
  simp only [parseDirective, hds, if_pos hc]
  rw [takeNe_app ':' flag (valRender ++ ' ' :: rest) hfc,
    dropNe_app ':' flag (valRender ++ ' ' :: rest) hfc]
  simp only [if_neg hf, if_pos rfl, hval]
  simp

theorem renderDirective_shape (d : Directive) (rest : List Char) :
    renderDirective d ++ rest
      = (if d.dash then '-' else '/')
          :: (d.flag ++ ':' :: (renderValue d ++ ' ' :: rest)) := by
  simp [renderDirective, List.append_assoc]

theorem parseDirective_render (d : Directive) (h : WfDirective d) (rest : List Char) :
    parseDirective (renderDirective d ++ rest) = some ((d.flag, d.value), rest) := by
  obtain ⟨hf, hfc, hv, hq, hb⟩ := h
  rw [renderDirective_shape]
  have hval : parseValue (renderValue d ++ ' ' :: rest) = some (d.value, ' ' :: rest) := by
    cases hqd : d.quoted
    · obtain ⟨hsp, hhd⟩ := hb hqd
      simp only [renderValue, hqd]
      simp only [Bool.false_eq_true, if_false]
      exact parseValue_bare d.value rest hv hsp hhd
    · have hqv := hq hqd
      simp only [renderValue, hqd, if_pos rfl]
      exact parseValue_quoted d.value rest hv hqv
  exact parseDirective_core (if d.dash then '-' else '/')
    (by cases d.dash <;> simp) d.flag (renderValue d) d.value rest hf hfc hval

theorem renderDirectives_cons (d : Directive) (ds : List Directive) :
    renderDirectives (d :: ds) = renderDirective d ++ renderDirectives ds := by
  simp [renderDirectives]

theorem drectveLoop_render :
    ∀ (ds : List Directive) (fuel : Nat), (∀ d ∈ ds, WfDirective d) → ds.length < fuel →
      drectveLoop fuel (renderDirectives ds)
        = (ds.filter isDefaultlibDir).map (fun d => d.value) := by
  intro ds
  induction ds with
  | nil =>
    intro fuel _ hfuel
    cases fuel with
    | zero => omega
    | succ f => rfl
  | cons d rest ih =>
    intro fuel hwf hfuel
    cases fuel with
    | zero => omega
    | succ f =>
      have hd := hwf d (List.mem_cons_self d rest)
      have hlen : rest.length < f := by
        simp only [List.length_cons] at hfuel
        omega
      have ihs := ih f (fun x hx => hwf x (List.mem_cons_of_mem d hx)) hlen
      rw [renderDirectives_cons]
      simp only [drectveLoop, parseDirective_render d hd (renderDirectives rest)]
      cases hdl : eqIgnoreAsciiCase d.flag (String.toList "DEFAULTLIB")
      · have hdl2 : isDefaultlibDir d = false := hdl
        rw [if_neg Bool.false_ne_true, ihs, List.filter_cons, hdl2,
          if_neg Bool.false_ne_true]
      · have hdl2 : isDefaultlibDir d = true := hdl
        rw [if_pos rfl, ihs, List.filter_cons, hdl2, if_pos rfl, List.map_cons]

theorem length_renderDirectives_ge :
    ∀ (ds : List Directive), ds.length ≤ (renderDirectives ds).length := by
  intro ds
  induction ds with
  | nil => simp [renderDirectives]
  | cons d rest ih =>
    rw [renderDirectives_cons, List.length_append]
    have h1 : 1 ≤ (renderDirective d).length := by
      unfold renderDirective
      simp
    simp only [List.length_cons]
    omega


end Boflink

/-- Claim C2 (code_bug evaluation): at the failing input — a COMDAT
`Largest` symbol with two definitions whose sections have data lengths
5 and 3 in definition order — `handle_comdats` discards neither section
(the running-largest loop never discards a later, smaller section),
while the claim and the code's own comment ("Find the largest size and
discard the rest.") require the 3-byte section to be discarded. -/
theorem C2_largest_code_eval :
    Boflink.handleLargest [5, 3] = [false, false] ∧
    Boflink.specLargestFlags [5, 3] = [false, true] := by
  constructor <;> rfl

/-- Claim C1: for a surviving relocation whose target symbol is not a
section symbol and whose first surviving definition lies in the same
output-section group as the relocating member section, `link()` emits no
COFF relocation and instead patches the four bytes at the relocation's
offset: it reads them big-endian, adds
`symbol_addr - (reloc_addr + 4)` with wrap-around modulo 2^32 (where
`reloc_addr` is the relocation offset plus the member's virtual address
and `symbol_addr` is the definition offset plus the target section's
virtual address), and writes the sum back little-endian. -/
theorem C1_same_group_static_resolution (r : Boflink.RelocInfo) (d : Boflink.DefInfo)
    (hsec : r.symIsSection = false)
    (hd : Boflink.findSurvivingDef r.defs = some d)
    (hg : d.targetGroup = r.secGroup)
    (hb : r.relocOff + 4 ≤ r.data.length) :
    Boflink.emitsRelocation r = false ∧
    Boflink.fixupReloc r = .ok (some (Boflink.patch4 r.data r.relocOff
      (Boflink.wadd (Boflink.be32At r.data r.relocOff)
        (Boflink.wsub (Boflink.wadd d.addr d.targetVA)
          (Boflink.wadd (Boflink.wadd r.relocOff r.secVA) 4))))) := by
  have hnb : ¬ (r.relocOff + 4 > r.data.length) := by omega
  constructor
  · simp [Boflink.emitsRelocation, hd, hg]
  · simp [Boflink.fixupReloc, hd, hsec, hg, hnb]

/-- Witness for C1 at `rexSameGroup`: the relocation is skipped at
emission and the patched word is `8 - (0 + 4) = 4`. -/
theorem C1_same_group_witness :
    Boflink.emitsRelocation Boflink.rexSameGroup = false ∧
    Boflink.fixupReloc Boflink.rexSameGroup = .ok (some (Boflink.patch4
      Boflink.rexSameGroup.data 0
      (Boflink.wadd (Boflink.be32At Boflink.rexSameGroup.data 0)
        (Boflink.wsub (Boflink.wadd 8 0) (Boflink.wadd (Boflink.wadd 0 0) 4))))) :=
  C1_same_group_static_resolution Boflink.rexSameGroup
    { discarded := false, addr := 8, targetVA := 0, targetGroup := ".text" }
    rfl rfl rfl (by decide)

/-- Claim C5 counterexample: a surviving relocation at offset 8 of a
four-byte section (so offset + 4 > size) whose target symbol has no
definitions but one library import: `link()`'s relocation passes succeed
instead of failing with the relocation-out-of-bounds error the claim
requires. -/
theorem C5_oob_counterexample :
    Boflink.rexImportOOB.relocOff + 4 > Boflink.rexImportOOB.data.length ∧
    Boflink.linkRelocPasses [Boflink.rexImportOOB] = .ok () := by
  constructor
  · decide
  · rfl

/-- Claim C5 (amended): a surviving relocation is bounds-checked only
when its target symbol has a surviving (non-discarded) definition; for
every such relocation with offset + 4 exceeding the containing member
section's size, the fixup yields the relocation-out-of-bounds link error
and `link()`'s relocation passes do not succeed. -/
theorem C5_oob_amended (rs : List Boflink.RelocInfo) (r : Boflink.RelocInfo)
    (d : Boflink.DefInfo) (hmem : r ∈ rs)
    (hd : Boflink.findSurvivingDef r.defs = some d)
    (hb : r.relocOff + 4 > r.data.length) :
    Boflink.fixupReloc r = .error (.relocationBounds r.relocOff r.data.length) ∧
    Boflink.linkRelocPasses rs ≠ .ok () := by
  have herr : Boflink.fixupReloc r = .error (.relocationBounds r.relocOff r.data.length) := by
    unfold Boflink.fixupReloc
    rw [hd]
    simp [hb]
  exact ⟨herr, Boflink.linkRelocPasses_ne_ok hmem herr⟩

/-- Witness for the amended C5 at `rexDefOOB`. -/
theorem C5_oob_amended_witness :
    Boflink.fixupReloc Boflink.rexDefOOB = .error (.relocationBounds 8 4) ∧
    Boflink.linkRelocPasses [Boflink.rexDefOOB] ≠ .ok () :=
  C5_oob_amended [Boflink.rexDefOOB] Boflink.rexDefOOB
    { discarded := false, addr := 0, targetVA := 0, targetGroup := ".data" }
    (List.mem_cons_self Boflink.rexDefOOB []) rfl (by decide)

/-- Claim C4: after COMMON allocation every COMMON symbol has exactly
one definition edge carrying its final offset; with each symbol's
requested size the largest definition address and symbols processed in
ascending size order, every final offset is a multiple of the COMMON
section's alignment, offsets are monotonically non-decreasing along the
(size-sorted) processing order, the COMMON section's uninitialized size
is the total allocated (final offset plus final size), and the COMMON
section is appended to the `.bss` output group. -/
theorem C4_common_allocation (s : Boflink.CommonState) (syms : List (String × List Nat))
    (hp : s.pending = some syms) (ha : 0 < s.align)
    (_hne : ∀ p ∈ syms, p.2 ≠ []) :
    (Boflink.allocateCommons s).finalDefs
        = (Boflink.commonAllocation s.align syms).map (fun t => (t.1, [t.2.2])) ∧
    (Boflink.commonAllocation s.align syms).length = syms.length ∧
    (∀ t ∈ Boflink.commonAllocation s.align syms, t.2.2 % s.align = 0) ∧
    List.Pairwise (fun a b => a.2.1 ≤ b.2.1) (Boflink.commonAllocation s.align syms) ∧
    List.Pairwise (fun a b => a.2.2 ≤ b.2.2) (Boflink.commonAllocation s.align syms) ∧
    (Boflink.allocateCommons s).commonSize
        = (match (Boflink.commonAllocation s.align syms).getLast? with
           | none => 0
           | some t => t.2.2 + t.2.1) ∧
    (Boflink.allocateCommons s).bssNodes = s.bssNodes ++ ["COMMON data"] := by
  refine ⟨?_, ?_, ?_, ?_, ?_, ?_, ?_⟩
  · simp [Boflink.allocateCommons, hp]
  · unfold Boflink.commonAllocation Boflink.sortedSizes
    rw [Boflink.length_assignOffsets, Boflink.length_sortBySize, List.length_map]
  · intro t ht
    exact Boflink.assignOffsets_mod ha ht
  · exact Boflink.assignOffsets_pairwise_size (Boflink.sortBySize_sorted _)
  · exact Boflink.assignOffsets_pairwise_off
  · show (Boflink.allocateCommons s).commonSize = _
    simp only [Boflink.allocateCommons, hp, Boflink.commonAllocation]
    exact Boflink.finalAddr_eq_getLast _ 0
  · simp [Boflink.allocateCommons, hp]

/-- Witness for C4 at `commonsExample`: symbol `a` (size 8) lands at
offset 0, symbol `b` (size 12) at offset 8, the COMMON section's size
becomes 20 and it is appended to `.bss`. -/
theorem C4_common_allocation_witness :
    (Boflink.allocateCommons Boflink.commonsExample).finalDefs
        = (Boflink.commonAllocation 8 [("b", [4, 12]), ("a", [8])]).map
            (fun t => (t.1, [t.2.2])) ∧
    (Boflink.commonAllocation 8 [("b", [4, 12]), ("a", [8])]).length
        = [("b", [4, 12]), ("a", [8])].length ∧
    (∀ t ∈ Boflink.commonAllocation 8 [("b", [4, 12]), ("a", [8])], t.2.2 % 8 = 0) ∧
    List.Pairwise (fun a b => a.2.1 ≤ b.2.1)
      (Boflink.commonAllocation 8 [("b", [4, 12]), ("a", [8])]) ∧
    List.Pairwise (fun a b => a.2.2 ≤ b.2.2)
      (Boflink.commonAllocation 8 [("b", [4, 12]), ("a", [8])]) ∧
    (Boflink.allocateCommons Boflink.commonsExample).commonSize
        = (match (Boflink.commonAllocation 8 [("b", [4, 12]), ("a", [8])]).getLast? with
           | none => 0
           | some t => t.2.2 + t.2.1) ∧
    (Boflink.allocateCommons Boflink.commonsExample).bssNodes
        = [".bss$a"] ++ ["COMMON data"] :=
  C4_common_allocation Boflink.commonsExample [("b", [4, 12]), ("a", [8])]
    rfl (by decide) (by decide)

/-- Claim C10: COMMON allocation is idempotent on the built graph: once
`allocate_commons` has run (directly or via `merge_bss`), every later
call — including the unconditional one at the start of `link()` — leaves
the graph state unchanged: no offsets are reassigned, the COMMON
section's size is not changed, and the COMMON section is not appended to
`.bss` a second time. -/
theorem C10_allocate_commons_idempotent (s : Boflink.CommonState) :
    Boflink.allocateCommons (Boflink.allocateCommons s) = Boflink.allocateCommons s ∧
    Boflink.allocateCommons (Boflink.mergeBss s) = Boflink.mergeBss s := by
  cases hp : s.pending with
  | none => constructor <;> simp [Boflink.allocateCommons, Boflink.mergeBss, hp]
  | some syms => constructor <;> simp [Boflink.allocateCommons, Boflink.mergeBss, hp]

/-- Claim C3: when at least one library-import edge's source symbol has
a surviving relocation reference and is not already named
`__imp_<import name>`, `apply_import_thunks` creates a single
`.text$zzz` code section in the root COFF with 8 bytes per eligible
symbol, each 8-byte chunk `FF 25 00 00 00 00 90 90`; the i-th eligible
symbol gains a definition edge at offset `i*8`; a fresh undefined
external symbol `__imp_<import name>` is created, the original import
edge is re-homed onto it, and a relocation edge to it is added at
offset `i*8 + 2` with type `REL32` (64-bit) or `DIR32` (32-bit). -/
theorem C3_import_thunks (m : Boflink.Mach) (edges : List Boflink.ImportEdgeInfo)
    (h : edges.filter Boflink.thunkEligible ≠ []) :
    ∃ t, Boflink.applyImportThunks m edges = some t ∧
      t.name = ".text$zzz" ∧
      t.characteristics = Boflink.thunkSectionCharacteristics ∧
      t.inRootCoff = true ∧
      t.sectionData.length = (edges.filter Boflink.thunkEligible).length * 8 ∧
      (∀ i, i < (edges.filter Boflink.thunkEligible).length →
        (t.sectionData.drop (8 * i)).take 8 = [0xff, 0x25, 0, 0, 0, 0, 0x90, 0x90]) ∧
      t.thunks.length = (edges.filter Boflink.thunkEligible).length ∧
      (∀ i (hi : i < t.thunks.length)
          (hi2 : i < (edges.filter Boflink.thunkEligible).length),
        (t.thunks.get ⟨i, hi⟩).defOffset = i * 8 ∧
        (t.thunks.get ⟨i, hi⟩).relocOffset = i * 8 + 2 ∧
        (t.thunks.get ⟨i, hi⟩).relocType = Boflink.thunkRelocType m ∧
        (t.thunks.get ⟨i, hi⟩).srcName
            = ((edges.filter Boflink.thunkEligible).get ⟨i, hi2⟩).srcName ∧
        (t.thunks.get ⟨i, hi⟩).newSymName
            = "__imp_" ++ ((edges.filter Boflink.thunkEligible).get ⟨i, hi2⟩).impName ∧
        (t.thunks.get ⟨i, hi⟩).newSymExternal = true ∧
        (t.thunks.get ⟨i, hi⟩).newSymIsSection = false ∧
        (t.thunks.get ⟨i, hi⟩).movedImportSource = (t.thunks.get ⟨i, hi⟩).newSymName) := by
  have hne : (edges.filter Boflink.thunkEligible).isEmpty = false := by
    cases hcase : (edges.filter Boflink.thunkEligible).isEmpty
    · rfl
    · exact absurd (List.isEmpty_iff.mp hcase) h
  have happ : Boflink.applyImportThunks m edges
      = some (Boflink.buildThunkSection m (edges.filter Boflink.thunkEligible)) := by
    simp [Boflink.applyImportThunks, hne]
  refine ⟨_, happ, rfl, rfl, rfl, ?_, ?_, ?_, ?_⟩
  · show ((List.replicate (edges.filter Boflink.thunkEligible).length
        Boflink.codeThunk).flatten).length = _
    rw [Boflink.joinReplicate_length]
    rfl
  · intro i hi
    exact Boflink.joinReplicate_chunk Boflink.codeThunk rfl _ i hi
  · show (((List.range (edges.filter Boflink.thunkEligible).length).zip
        (edges.filter Boflink.thunkEligible)).map _).length = _
    simp
  · intro i hi hi2
    rw [Boflink.buildThunkSection_get m (edges.filter Boflink.thunkEligible) i hi hi2]
    refine ⟨rfl, ?_, rfl, rfl, rfl, rfl, rfl, rfl⟩
    show 2 + i * 8 = i * 8 + 2
    omega

/-- Witness for C3 at a single eligible edge (`Sleep` imported as
`Sleep`, one surviving reference) for the 64-bit target. -/
theorem C3_import_thunks_witness :
    ∃ t, Boflink.applyImportThunks Boflink.Mach.amd64 [Boflink.thunkExampleEdge] = some t ∧
      t.name = ".text$zzz" ∧
      t.characteristics = Boflink.thunkSectionCharacteristics ∧
      t.inRootCoff = true ∧
      t.sectionData.length
          = ([Boflink.thunkExampleEdge].filter Boflink.thunkEligible).length * 8 ∧
      (∀ i, i < ([Boflink.thunkExampleEdge].filter Boflink.thunkEligible).length →
        (t.sectionData.drop (8 * i)).take 8 = [0xff, 0x25, 0, 0, 0, 0, 0x90, 0x90]) ∧
      t.thunks.length = ([Boflink.thunkExampleEdge].filter Boflink.thunkEligible).length ∧
      (∀ i (hi : i < t.thunks.length)
          (hi2 : i < ([Boflink.thunkExampleEdge].filter Boflink.thunkEligible).length),
        (t.thunks.get ⟨i, hi⟩).defOffset = i * 8 ∧
        (t.thunks.get ⟨i, hi⟩).relocOffset = i * 8 + 2 ∧
        (t.thunks.get ⟨i, hi⟩).relocType = Boflink.thunkRelocType Boflink.Mach.amd64 ∧
        (t.thunks.get ⟨i, hi⟩).srcName
            = (([Boflink.thunkExampleEdge].filter Boflink.thunkEligible).get ⟨i, hi2⟩).srcName ∧
        (t.thunks.get ⟨i, hi⟩).newSymName
            = "__imp_" ++ (([Boflink.thunkExampleEdge].filter
                Boflink.thunkEligible).get ⟨i, hi2⟩).impName ∧
        (t.thunks.get ⟨i, hi⟩).newSymExternal = true ∧
        (t.thunks.get ⟨i, hi⟩).newSymIsSection = false ∧
        (t.thunks.get ⟨i, hi⟩).movedImportSource = (t.thunks.get ⟨i, hi⟩).newSymName) :=
  C3_import_thunks Boflink.Mach.amd64 [Boflink.thunkExampleEdge] (by decide)

/-- Claim C6 (code_bug evaluation): at the failing input — an
archive-member COFF whose `.drectve` names the not-yet-opened library
`fresh.lib` while the opened-library set is `{uuid}` — the driver queues
nothing (it queues a member-COFF library only when its untrimmed name is
already in the opened set), while the spec's queueing (the pattern used
for top-level inputs) queues `fresh`; moreover even a queued
already-known name is never opened by the drain step. -/
theorem C6_drectve_queue_code_eval :
    Boflink.queueMemberDrectve ["uuid"] ["fresh.lib"] = [] ∧
    Boflink.queueMemberDrectveClaim ["uuid"] ["fresh.lib"] = ["fresh"] ∧
    Boflink.drainOpens ["uuid"] (Boflink.queueMemberDrectve ["uuid"] ["fresh.lib"]) = [] ∧
    Boflink.queueMemberDrectve ["uuid"] ["uuid"] = ["uuid"] ∧
    Boflink.drainOpens ["uuid"] (Boflink.queueMemberDrectve ["uuid"] ["uuid"]) = [] := by
  refine ⟨?_, ?_, ?_, ?_, ?_⟩ <;> decide

/-- Claim C7 counterexample: for the 32-bit target the code strips only
the `__imp__` prefix, not a lone leading underscore: looking up
`_BeaconPrintf` reports not-found, while the claim's stripping (leading
underscore and `__imp__` prefix) yields `BeaconPrintf`, a roster member,
and so demands an import record. -/
theorem C7_api_strip_counterexample :
    Boflink.extractApiSymbol Boflink.Mach.i386 "_BeaconPrintf" = none ∧
    Boflink.extractApiSymbolClaim "_BeaconPrintf"
      = some (Boflink.ImportMemberInfo.mk Boflink.Mach.i386 "BeaconPrintf" "Beacon API"
          "BeaconPrintf" Boflink.ImpType.code) := by
  constructor
  · decide
  · decide

/-- Claim C7 (amended): for the 32-bit (I386) target the lookup strips
(repeatedly) the `__imp__` prefix — a lone leading underscore is not
stripped — and matches the result against the roster; the result is the
roster hit mapped to an import record with DLL "Beacon API", kind Code
and import name the matched roster symbol itself; not-found is reported
exactly when the stripped name is not in the roster. -/
theorem C7_api_lookup_amended (s : String) :
    Boflink.extractApiSymbol Boflink.Mach.i386 s
      = Option.map (fun c => Boflink.ImportMemberInfo.mk Boflink.Mach.i386 c "Beacon API"
            c Boflink.ImpType.code)
          (Boflink.findMatch Boflink.beaconApiSymbols
            (Boflink.trimStartMatches "__imp__" s)) ∧
    (Boflink.extractApiSymbol Boflink.Mach.i386 s = none ↔
      Boflink.trimStartMatches "__imp__" s ∉ Boflink.beaconApiSymbols) ∧
    (Boflink.extractApiSymbol Boflink.Mach.i386 s).all
      (fun m => m.dll == "Beacon API" && m.typ == Boflink.ImpType.code
        && m.importAs == m.symbol && Boflink.beaconApiSymbols.contains m.symbol) = true := by
  cases hm : Boflink.findMatch Boflink.beaconApiSymbols
      (Boflink.trimStartMatches "__imp__" s) with
  | none =>
    have hnm : Boflink.trimStartMatches "__imp__" s ∉ Boflink.beaconApiSymbols :=
      (Boflink.findMatch_eq_none _ _).mp hm
    refine ⟨?_, ?_, ?_⟩
    · simp [Boflink.extractApiSymbol, hm]
    · simp [Boflink.extractApiSymbol, hm, hnm]
    · simp [Boflink.extractApiSymbol, hm]
  | some c =>
    obtain ⟨hcu, hcl⟩ := Boflink.findMatch_eq_some _ _ _ hm
    have hmem : Boflink.trimStartMatches "__imp__" s ∈ Boflink.beaconApiSymbols :=
      hcu ▸ hcl
    refine ⟨?_, ?_, ?_⟩
    · simp [Boflink.extractApiSymbol, hm]
    · simp [Boflink.extractApiSymbol, hm, hmem]
    · simp [Boflink.extractApiSymbol, hm]
      exact hcl

/-- Claim C9 counterexample: section 1 enters `handle_comdats` already
discarded (flag `true`) while its associative root, section 0, survives
a COMDAT `Any` selection; the propagation (`set_discarded(root's flag)`)
flips section 1's discarded flag back from `true` to `false`, so the
flag is not false-to-true monotone. -/
theorem C9_discard_flip_counterexample :
    ([false, true] : List Bool).getD 1 false = true ∧
    Boflink.handleComdats Boflink.secsC9 Boflink.symsC9 [false, true] = [false, false] := by
  constructor
  · rfl
  · decide

/-- Claim C9 (amended): the per-selection COMDAT handling
(Any/SameSize/ExactMatch discards and the Largest loop) only sets
discarded flags to true (monotone), but associative propagation copies
the root's pre-propagation flag onto every section its BFS visits —
flipping an already-discarded dependent back to false when the root
survives — and leaves unvisited sections unchanged. -/
theorem C9_discard_monotone_amended (secs : List Boflink.SecMeta) (flags : List Bool) :
    (∀ (ds : List Boflink.SymDefInfo) (i : Nat), flags.getD i false = true →
      (Boflink.discardRest flags ds).getD i false = true) ∧
    (∀ (lg : Option Nat) (ds : List Boflink.SymDefInfo) (i : Nat),
      flags.getD i false = true →
      (Boflink.largestPhase secs lg ds flags).getD i false = true) ∧
    (∀ (root i : Nat), i ∈ Boflink.associativeBfs secs root → i < flags.length →
      (Boflink.propagateFrom secs flags root).getD i false = flags.getD root false) ∧
    (∀ (root i : Nat), i ∉ Boflink.associativeBfs secs root →
      (Boflink.propagateFrom secs flags root).getD i false = flags.getD i false) := by
  refine ⟨?_, ?_, ?_, ?_⟩
  · intro ds i h
    exact Boflink.discardRest_mono ds flags i h
  · intro lg ds i h
    exact Boflink.largestPhase_mono secs ds lg flags i h
  · intro root i hmem hlt
    exact Boflink.foldl_set_getD_of_mem _ _ flags i hmem hlt
  · intro root i hnm
    exact Boflink.foldl_set_getD_of_not_mem _ _ flags i hnm

/-- Witness for the amended C9 at concrete two-section graphs. -/
theorem C9_discard_monotone_witness :
    (Boflink.discardRest [true, false]
        [{ target := 1, selection := none }]).getD 0 false = true ∧
    (Boflink.largestPhase Boflink.secsC9 none
        [{ target := 1, selection := none }] [true, false]).getD 0 false = true ∧
    (Boflink.propagateFrom Boflink.secsC9 [false, true] 0).getD 1 false
        = ([false, true] : List Bool).getD 0 false ∧
    (Boflink.propagateFrom Boflink.secsC9 [false, true] 1).getD 0 false
        = ([false, true] : List Bool).getD 0 false :=
  ⟨(C9_discard_monotone_amended Boflink.secsC9 [true, false]).1
      [{ target := 1, selection := none }] 0 (by decide),
   (C9_discard_monotone_amended Boflink.secsC9 [true, false]).2.1 none
      [{ target := 1, selection := none }] 0 (by decide),
   (C9_discard_monotone_amended Boflink.secsC9 [false, true]).2.2.1 0 1
      (by decide) (by decide),
   (C9_discard_monotone_amended Boflink.secsC9 [false, true]).2.2.2 1 0 (by decide)⟩

/-- Claim C8 counterexample: the directive string `/DEFAULTLIB:foo`
(no character after the value) yields nothing — the value parser's
`terminated_by(token(" "))` demands a space after the value, which end
of input cannot supply — while the claim requires the iterator to yield
exactly `foo`. -/
theorem C8_drectve_counterexample :
    Boflink.drectveLibraries "/DEFAULTLIB:foo".toList = [] ∧
    Boflink.drectveLibraries "/DEFAULTLIB:foo".toList ≠ ["foo".toList] := by
  constructor
  · decide
  · decide

/-- Claim C8 (amended): for a directive-section string that is a
concatenation of well-formed space-terminated tokens
`-FLAG:value ` / `/FLAG:value ` (flag non-empty and colon-free; value
either a non-empty double-quoted string without inner quotes or a
non-empty bare token without spaces not starting with a quote, in each
case followed by a space character), the iterator yields exactly the
values of the `DEFAULTLIB` tokens (flag matched case-insensitively,
quotes removed), in order; a trailing directive whose value is not
followed by a space is not yielded. -/
theorem C8_drectve_amended (ds : List Boflink.Directive)
    (hwf : ∀ d ∈ ds, Boflink.WfDirective d) :
    Boflink.drectveLibraries (Boflink.renderDirectives ds)
      = (ds.filter Boflink.isDefaultlibDir).map (fun d => d.value) :=
  Boflink.drectveLoop_render ds ((Boflink.renderDirectives ds).length + 1) hwf
    (Nat.lt_succ_of_le (Boflink.length_renderDirectives_ge ds))

/-- Witness for the amended C8 at three concrete tokens:
`/DEFAULTLIB:uuid.lib `, `-defaultlib:"user32.lib" ` and `/EXPORT:go `
yield the two `DEFAULTLIB` values. -/
theorem C8_drectve_amended_witness :
    Boflink.drectveLibraries (Boflink.renderDirectives Boflink.drectveExampleDirs)
      = (Boflink.drectveExampleDirs.filter Boflink.isDefaultlibDir).map
          (fun d => d.value) :=
  C8_drectve_amended Boflink.drectveExampleDirs (by decide)
